import Mathlib

/-!
Verification of the movie-feature ingestion loop of
`src/store_data/store_db_milvus.py` (lines 141-186).

The loop reads CSV rows, skips rows with fewer than 29 cells, stops once
the accepted counter exceeds 20000, drops the leading index cell, coerces
digit-only cells at the allowlisted positions [5, 8, 12, 19, 20, 25, 26]
to integers, sanitizes every other cell by replacing single-quote
characters with spaces, rejects the whole row when a sanitized cell is
longer than 10000 characters, applies a literal parser to the (sanitized)
final cell, and inserts the resulting record.

Modelling notes:
* Python strings become Lean `String`; `str.isnumeric` is modelled as
  "non-empty and all decimal digits", its meaning on the ASCII data this
  loop handles.
* `ast.literal_eval` of the vector column is modelled by `literalEval`,
  a parser for bracketed comma-separated numeric literals; the numeric
  elements are kept as their source tokens (no claim compares their
  numeric values).  A failed parse is an uncaught Python exception, which
  ends the whole run: the pipeline records it as `aborted`.
* The Milvus collection sink is irrelevant to the claims; an accepted
  record is the list of transformed cell values.
-/

/-- The quote character replaced by `data.replace` in the source. -/
def quoteChar : Char := Char.ofNat 39

/-- `numeric_columns_idx = [5, 8, 12, 19, 20, 25, 26]` from the source. -/
def numeric_columns_idx : List Nat := [5, 8, 12, 19, 20, 25, 26]

/-- Maximum sanitized field length accepted by the source (`len(data) > 10000`). -/
def maxFieldLength : Nat := 10000

/-- Model of Python `str.isnumeric` on the ASCII data of this loop:
non-empty and every character a decimal digit. -/
def pyIsnumeric (s : String) : Bool :=
  !s.data.isEmpty && s.data.all Char.isDigit

/-- Model of Python `int(data)` on a digit-only string. -/
def pyInt (s : String) : Nat :=
  s.data.foldl (fun a c => a * 10 + (c.toNat - 48)) 0

/-- Model of `data.replace` with a quote pattern: every single-quote
character becomes a space. -/
def sanitize (s : String) : String :=
  String.mk (s.data.map (fun c => if c = quoteChar then ' ' else c))

/-- Drop leading and trailing spaces. -/
def trimSp (l : List Char) : List Char :=
  ((l.dropWhile (fun c => c = ' ')).reverse.dropWhile (fun c => c = ' ')).reverse

/-- Split a character list at commas (the commas are dropped). -/
def splitCommas (l : List Char) : List (List Char) :=
  l.foldr
    (fun c acc =>
      match acc with
      | [] => [[c]]
      | cur :: parts =>
        if c = ',' then [] :: cur :: parts else (c :: cur) :: parts)
    [[]]

/-- An unsigned numeric literal: digits, optionally a dot and more digits. -/
def numCore (m : List Char) : Bool :=
  match m.span Char.isDigit with
  | (ip, rest) =>
    match rest with
    | [] => !ip.isEmpty
    | c :: frac => !ip.isEmpty && (c == '.') && !frac.isEmpty && frac.all Char.isDigit

/-- A numeric literal token, with an optional leading minus sign. -/
def numTok (l : List Char) : Bool :=
  match l with
  | [] => false
  | c :: r => if c == '-' then numCore r else numCore l

/-- Model of `ast.literal_eval` restricted to the shape this column holds:
a bracketed, comma-separated list of numeric literals.  Elements are kept
as their tokens.  Any other input makes `literal_eval` raise, modelled as
`none`. -/
def literalEval (s : String) : Option (List String) :=
  match trimSp s.data with
  | [] => none
  | c :: rest =>
    if c = '[' then
      match rest.getLast? with
      | none => none
      | some d =>
        if d = ']' then
          let interior := rest.dropLast
          if (trimSp interior).isEmpty then some []
          else
            let parts := (splitCommas interior).map trimSp
            if parts.all numTok then some (parts.map (fun p => String.mk p))
            else none
        else none
    else none

/-- A transformed cell value: a coerced integer, a sanitized string, or the
parsed vector literal of the final column. -/
inductive CellVal where
  | int (n : Nat)
  | str (s : String)
  | lit (xs : List String)
deriving DecidableEq, Repr

/-- Outcome of processing one cell inside the column loop. -/
inductive ColOut where
  | ok (v : CellVal)
  | tooLong
deriving DecidableEq, Repr

/-- One iteration of the column loop (source lines 164-175): coerce a
digit-only cell at an allowlisted position, otherwise sanitize and check
the length bound. -/
def processCell (col : Nat) (cell : String) : ColOut :=
  if pyIsnumeric cell && numeric_columns_idx.contains col then
    ColOut.ok (CellVal.int (pyInt cell))
  else
    if maxFieldLength < (sanitize cell).length then ColOut.tooLong
    else ColOut.ok (CellVal.str (sanitize cell))

/-- The whole column loop: stops at the first over-long cell
(`long_data_exists` with `break` in the source), otherwise yields the
transformed cells in order. -/
def processCells : Nat → List String → Option (List CellVal)
  | _, [] => some []
  | col, d :: rest =>
    match processCell col d with
    | ColOut.tooLong => none
    | ColOut.ok v => (processCells (col + 1) rest).map (fun vs => v :: vs)

/-- Per-row outcome of the transformation. -/
inductive RowOut where
  | record (vals : List CellVal)
  | shortRow
  | fieldTooLong
  | parseAbort
deriving DecidableEq, Repr

/-- Whether the outcome is an accepted record. -/
def RowOut.isRec : RowOut → Bool
  | RowOut.record _ => true
  | _ => false

/-- The per-row transformation (source lines 151-183, without the limit
check): reject rows shorter than 29 cells, drop the leading index cell,
run the column loop, then replace the final value by its parsed literal.
A parse failure is an uncaught exception (`parseAbort`); the catch-all
last-value case is unreachable for rows this loop accepts (a non-string
final value would equally raise in `ast.literal_eval`). -/
def transformRow (raw : List String) : RowOut :=
  if raw.length < 29 then RowOut.shortRow
  else
    match processCells 0 raw.tail with
    | none => RowOut.fieldTooLong
    | some vals =>
      match vals.getLast? with
      | some (CellVal.str s) =>
        match literalEval s with
        | none => RowOut.parseAbort
        | some v => RowOut.record (vals.dropLast ++ [CellVal.lit v])
      | _ => RowOut.parseAbort

/-- Observable result of a run of the ingestion loop.  `consumed` counts
the rows actually taken from the CSV iterator, `accepted` is the final
value of the counter `it`, `aborted` records an uncaught parse
exception. -/
structure Summary where
  accepted : Nat
  consumed : Nat
  shortRows : Nat
  tooLongRows : Nat
  records : List (List CellVal)
  aborted : Bool
deriving DecidableEq, Repr

/-- The ingestion loop (source lines 147-186) from counter value `it`:
the short-row check precedes the limit check, the limit check uses a
strict comparison and counts the breaking row as consumed, rejected rows
are skipped with `continue`, and a parse failure aborts the run. -/
def runFrom (limit : Nat) : Nat → List (List String) → Summary
  | it, [] => ⟨it, 0, 0, 0, [], false⟩
  | it, row :: rest =>
    if row.length < 29 then
      let s := runFrom limit it rest
      { s with consumed := s.consumed + 1, shortRows := s.shortRows + 1 }
    else if limit < it then
      ⟨it, 1, 0, 0, [], false⟩
    else
      match transformRow row with
      | RowOut.record vs =>
        let s := runFrom limit (it + 1) rest
        { s with consumed := s.consumed + 1, records := vs :: s.records }
      | RowOut.fieldTooLong =>
        let s := runFrom limit it rest
        { s with consumed := s.consumed + 1, tooLongRows := s.tooLongRows + 1 }
      | RowOut.parseAbort => ⟨it, 1, 0, 0, [], true⟩
      | RowOut.shortRow =>
        let s := runFrom limit it rest
        { s with consumed := s.consumed + 1, shortRows := s.shortRows + 1 }

/-- A whole run, counter starting at 0. -/
def run (limit : Nat) (rows : List (List String)) : Summary :=
  runFrom limit 0 rows

/-- The hard-coded accepted-row limit of the source. -/
def sourceLimit : Nat := 20000

/-- The run exactly as the source performs it, with `limit = 20000`. -/
def runSource (rows : List (List String)) : Summary :=
  run sourceLimit rows

/-- A valid 29-cell row used in concrete tests: index cell, 27 plain
cells, and a well-formed vector literal. -/
def validRow : List String := List.replicate 28 "x" ++ ["[1]"]

example : transformRow validRow
    = RowOut.record (List.replicate 27 (CellVal.str "x") ++ [CellVal.lit ["1"]]) := by
  decide

example : literalEval "[1.5, -2]" = some ["1.5", "-2"] := by decide
example : literalEval "[]" = some [] := by decide
example : literalEval "nonsense" = none := by decide
example : literalEval "[1,]" = none := by decide
example : processCell 5 "123" = ColOut.ok (CellVal.int 123) := by decide
example : processCell 4 "123" = ColOut.ok (CellVal.str "123") := by decide
example : pyInt "907" = 907 := by decide

/-! ### Helper lemmas -/

lemma contains_iff_mem (col : Nat) :
    numeric_columns_idx.contains col = true ↔ col ∈ numeric_columns_idx :=
  List.elem_iff

lemma sanitize_length (s : String) : (sanitize s).length = s.length := by
  unfold sanitize
  show (s.data.map (fun c => if c = quoteChar then ' ' else c)).length = s.length
  rw [List.length_map]
  rfl

lemma sanitize_of_numeric {s : String} (h : pyIsnumeric s = true) :
    sanitize s = s := by
  unfold pyIsnumeric at h
  unfold sanitize
  have hall : s.data.all Char.isDigit = true := (Bool.and_eq_true_iff.mp h).2
  have hmap : s.data.map (fun c => if c = quoteChar then ' ' else c) = s.data := by
    have h1 : ∀ c ∈ s.data, (fun c => if c = quoteChar then ' ' else c) c = c := by
      intro c hc
      have hd : Char.isDigit c = true := List.all_eq_true.mp hall c hc
      have hne : ¬ c = quoteChar := by
        intro he
        subst he
        exact absurd hd (by decide)
      simp [hne]
    rw [List.map_congr_left h1, List.map_id']
  rw [hmap]

lemma transformRow_ne_short {raw : List String} (h : ¬ raw.length < 29) :
    transformRow raw ≠ RowOut.shortRow := by
  unfold transformRow
  rw [if_neg h]
  split
  · simp
  · split
    · split
      · simp
      · simp
    · simp

lemma transformRow_eq_shortRow_iff (raw : List String) :
    transformRow raw = RowOut.shortRow ↔ raw.length < 29 := by
  constructor
  · intro hc
    by_contra h
    exact transformRow_ne_short h hc
  · intro h
    unfold transformRow
    rw [if_pos h]

lemma processCells_none (cells : List String) :
    ∀ (col i : Nat) (cell : String), cells[i]? = some cell →
      processCell (col + i) cell = ColOut.tooLong →
      processCells col cells = none := by
  induction cells with
  | nil =>
    intro col i cell hget _
    simp at hget
  | cons c rest ih =>
    intro col i cell hget hbad
    cases i with
    | zero =>
      simp at hget
      subst hget
      unfold processCells
      have hbad2 : processCell col c = ColOut.tooLong := by simpa using hbad
      rw [hbad2]
    | succ j =>
      simp at hget
      unfold processCells
      cases hpc : processCell col c with
      | tooLong => rfl
      | ok v =>
        have : processCells (col + 1) rest = none := by
          apply ih (col + 1) j cell hget
          have harith : col + 1 + j = col + (j + 1) := by omega
          rw [harith]
          exact hbad
        rw [this]
        rfl

lemma processCells_getLast (cells : List String) :
    ∀ (col : Nat) (vals : List CellVal) (c : String),
      processCells col cells = some vals → cells.getLast? = some c →
      ∃ v, processCell (col + (cells.length - 1)) c = ColOut.ok v ∧
        vals.getLast? = some v := by
  induction cells with
  | nil =>
    intro col vals c _ hc
    simp at hc
  | cons a rest ih =>
    intro col vals c h hc
    cases rest with
    | nil =>
      have hac : a = c := by simpa using hc
      unfold processCells at h
      cases hpc : processCell col a with
      | tooLong => rw [hpc] at h; exact absurd h (by simp)
      | ok v =>
        rw [hpc] at h
        unfold processCells at h
        simp at h
        subst h
        refine ⟨v, ?_, rfl⟩
        rw [← hac]
        simpa using hpc
    | cons b rest2 =>
      unfold processCells at h
      cases hpc : processCell col a with
      | tooLong => rw [hpc] at h; exact absurd h (by simp)
      | ok v =>
        rw [hpc] at h
        cases hrec : processCells (col + 1) (b :: rest2) with
        | none => rw [hrec] at h; exact absurd h (by simp)
        | some vals2 =>
          rw [hrec] at h
          simp at h
          have hc2 : (b :: rest2).getLast? = some c := by
            rw [← hc]
            exact List.getLast?_cons_cons.symm
          obtain ⟨w, hw1, hw2⟩ := ih (col + 1) vals2 c hrec hc2
          refine ⟨w, ?_, ?_⟩
          · have harith : col + 1 + ((b :: rest2).length - 1)
                = col + ((a :: b :: rest2).length - 1) := by
              simp only [List.length_cons]
              omega
            rw [← harith]
            exact hw1
          · subst h
            cases vals2 with
            | nil => simp at hw2
            | cons w2 ws =>
              rw [← hw2]
              exact List.getLast?_cons_cons

lemma all_replicate {n : Nat} (h : 0 < n) (c : Char) (p : Char → Bool) :
    (List.replicate n c).all p = p c := by
  induction n with
  | zero => exact absurd h (by omega)
  | succ m ih =>
    rw [List.replicate_succ, List.all_cons]
    cases m with
    | zero => simp
    | succ k =>
      rw [ih (Nat.succ_pos k)]
      exact Bool.and_self (p c)

lemma pyIsnumeric_replicate {n : Nat} (h : 0 < n) (c : Char)
    (hd : c.isDigit = true) :
    pyIsnumeric (String.mk (List.replicate n c)) = true := by
  unfold pyIsnumeric
  show (!(List.replicate n c).isEmpty && (List.replicate n c).all Char.isDigit) = true
  rw [all_replicate h c Char.isDigit, hd]
  cases n with
  | zero => exact absurd h (by omega)
  | succ m => rw [List.replicate_succ]; rfl

lemma length_mk_replicate (n : Nat) (c : Char) :
    (String.mk (List.replicate n c)).length = n := by
  show (List.replicate n c).length = n
  simp

/-! ### Claims -/

/-- C1: a cell at position `col` of the index-stripped row is coerced to an
integer exactly when it is a digit-only string and `col` is in the numeric
allowlist `[5, 8, 12, 19, 20, 25, 26]`; a digit-only cell at a position
outside the allowlist (whose sanitized form fits the length bound) is kept
as a string, unchanged by sanitization. -/
theorem claim_c1_position_gated_coercion (col : Nat) (s : String) :
    ((∃ n, processCell col s = ColOut.ok (CellVal.int n)) ↔
      (pyIsnumeric s = true ∧ col ∈ numeric_columns_idx))
    ∧ (pyIsnumeric s = true → col ∉ numeric_columns_idx →
        (sanitize s).length ≤ maxFieldLength →
        processCell col s = ColOut.ok (CellVal.str s)) := by
  constructor
  · constructor
    · intro hex
      obtain ⟨n, hn⟩ := hex
      by_cases hcond : (pyIsnumeric s && numeric_columns_idx.contains col) = true
      · obtain ⟨h1, h2⟩ := Bool.and_eq_true_iff.mp hcond
        exact ⟨h1, (contains_iff_mem col).mp h2⟩
      · unfold processCell at hn
        rw [if_neg hcond] at hn
        by_cases hlen : maxFieldLength < (sanitize s).length
        · rw [if_pos hlen] at hn
          exact absurd hn (by simp)
        · rw [if_neg hlen] at hn
          exact absurd hn (by simp)
    · intro hcm
      obtain ⟨h1, h2⟩ := hcm
      have hc2 : numeric_columns_idx.contains col = true := (contains_iff_mem col).mpr h2
      have hcond : (pyIsnumeric s && numeric_columns_idx.contains col) = true := by
        rw [h1, hc2]
        rfl
      refine ⟨pyInt s, ?_⟩
      unfold processCell
      rw [if_pos hcond]
  · intro h1 h2 h3
    have hc2 : numeric_columns_idx.contains col = false := by
      cases hcc : numeric_columns_idx.contains col with
      | false => rfl
      | true => exact absurd ((contains_iff_mem col).mp hcc) h2
    have hcond : ¬ ((pyIsnumeric s && numeric_columns_idx.contains col) = true) := by
      rw [hc2]
      simp
    unfold processCell
    rw [if_neg hcond, if_neg (Nat.not_lt.mpr h3), sanitize_of_numeric h1]

/-- Witness for C1: position 3 keeps the digit-only cell as a string,
position 5 coerces it. -/
theorem claim_c1_witness :
    processCell 3 "123" = ColOut.ok (CellVal.str "123")
    ∧ (∃ n, processCell 5 "123" = ColOut.ok (CellVal.int n)) :=
  ⟨(claim_c1_position_gated_coercion 3 "123").2 (by decide) (by decide) (by decide),
   (claim_c1_position_gated_coercion 5 "123").1.mpr ⟨by decide, by decide⟩⟩

/-- C6: a raw row with fewer than 29 cells (counted before the index cell
is dropped) is rejected as a short row and never yields a record. -/
theorem claim_c6_short_row (raw : List String) (h : raw.length < 29) :
    transformRow raw = RowOut.shortRow
    ∧ ∀ vs, transformRow raw ≠ RowOut.record vs := by
  have he : transformRow raw = RowOut.shortRow := (transformRow_eq_shortRow_iff raw).mpr h
  refine ⟨he, ?_⟩
  intro vs hv
  rw [he] at hv
  exact absurd hv (by simp)

/-- Witness for C6 at a two-cell row. -/
theorem claim_c6_witness :
    transformRow ["a", "b"] = RowOut.shortRow :=
  (claim_c6_short_row ["a", "b"] (by decide)).1

/-- C9: a digit-only cell at an allowlisted position is coerced to an
integer whatever its length; that cell never trips the length rejection. -/
theorem claim_c9_numeric_bypass (col : Nat) (s : String)
    (h1 : pyIsnumeric s = true) (h2 : col ∈ numeric_columns_idx) :
    processCell col s = ColOut.ok (CellVal.int (pyInt s))
    ∧ processCell col s ≠ ColOut.tooLong := by
  have hc2 : numeric_columns_idx.contains col = true := (contains_iff_mem col).mpr h2
  have hcond : (pyIsnumeric s && numeric_columns_idx.contains col) = true := by
    rw [h1, hc2]
    rfl
  constructor
  · unfold processCell
    rw [if_pos hcond]
  · unfold processCell
    rw [if_pos hcond]
    simp

/-- A 10001-character digit-only cell, longer than the field bound. -/
def bigDigits : String := String.mk (List.replicate 10001 '7')

/-- Witness for C9: the 10001-digit cell at position 5 is coerced, even
though it exceeds the 10000-character bound. -/
theorem claim_c9_witness :
    pyIsnumeric bigDigits = true
    ∧ maxFieldLength < bigDigits.length
    ∧ processCell 5 bigDigits = ColOut.ok (CellVal.int (pyInt bigDigits)) := by
  have h1 : pyIsnumeric bigDigits = true :=
    pyIsnumeric_replicate (by omega) '7' (by decide)
  refine ⟨h1, ?_, (claim_c9_numeric_bypass 5 bigDigits h1 (by decide)).1⟩
  show maxFieldLength < (String.mk (List.replicate 10001 '7')).length
  rw [length_mk_replicate]
  decide

lemma transformRow_tooLong_of_cell {raw : List String} {i : Nat} {cell : String}
    (h29 : ¬ raw.length < 29) (hget : raw.tail[i]? = some cell)
    (hnc : ¬ (pyIsnumeric cell = true ∧ i ∈ numeric_columns_idx))
    (hlong : maxFieldLength < (sanitize cell).length) :
    transformRow raw = RowOut.fieldTooLong := by
  have hbad : processCell (0 + i) cell = ColOut.tooLong := by
    have hcond : ¬ ((pyIsnumeric cell && numeric_columns_idx.contains (0 + i)) = true) := by
      simp only [Nat.zero_add]
      cases hcc : numeric_columns_idx.contains i with
      | false => simp
      | true =>
        cases hpn : pyIsnumeric cell with
        | false => simp
        | true => exact absurd ⟨hpn, (contains_iff_mem i).mp hcc⟩ hnc
    unfold processCell
    rw [if_neg hcond, if_pos hlong]
  have hnone : processCells 0 raw.tail = none :=
    processCells_none raw.tail 0 i cell hget hbad
  unfold transformRow
  rw [if_neg h29, hnone]

/-- C4: a cell that is not numerically coerced is first sanitized
(single quotes become spaces); if the sanitized string is longer than
10000 characters the whole row is rejected as `fieldTooLong` and no
record is produced. -/
theorem claim_c4_too_long_rejects (raw : List String) (i : Nat) (cell : String)
    (h29 : ¬ raw.length < 29) (hget : raw.tail[i]? = some cell)
    (hnc : ¬ (pyIsnumeric cell = true ∧ i ∈ numeric_columns_idx))
    (hlong : maxFieldLength < (sanitize cell).length) :
    transformRow raw = RowOut.fieldTooLong
    ∧ ∀ vs, transformRow raw ≠ RowOut.record vs := by
  have he : transformRow raw = RowOut.fieldTooLong :=
    transformRow_tooLong_of_cell h29 hget hnc hlong
  refine ⟨he, ?_⟩
  intro vs hv
  rw [he] at hv
  exact absurd hv (by simp)

/-- A 10001-character cell of letters, longer than the field bound. -/
def bigLetters : String := String.mk (List.replicate 10001 'a')

/-- A 29-cell row whose first data cell is over-long. -/
def longCellRow : List String := "0" :: bigLetters :: List.replicate 27 "x"

/-- Witness for C4: the row holding the over-long cell is rejected whole. -/
theorem claim_c4_witness :
    transformRow longCellRow = RowOut.fieldTooLong := by
  have h29 : ¬ longCellRow.length < 29 := by
    show ¬ ("0" :: bigLetters :: List.replicate 27 "x").length < 29
    simp
  have hget : longCellRow.tail[0]? = some bigLetters := rfl
  have hnc : ¬ (pyIsnumeric bigLetters = true ∧ 0 ∈ numeric_columns_idx) := by
    intro hcm
    exact absurd hcm.2 (by decide)
  have hlong : maxFieldLength < (sanitize bigLetters).length := by
    rw [sanitize_length]
    show maxFieldLength < (String.mk (List.replicate 10001 'a')).length
    rw [length_mk_replicate]
    decide
  exact (claim_c4_too_long_rejects longCellRow 0 bigLetters h29 hget hnc hlong).1

lemma transformRow_record_inv {raw : List String} {vs : List CellVal}
    (hv : transformRow raw = RowOut.record vs) :
    ¬ raw.length < 29
    ∧ ∃ vals s v, processCells 0 raw.tail = some vals
      ∧ vals.getLast? = some (CellVal.str s)
      ∧ literalEval s = some v
      ∧ vs = vals.dropLast ++ [CellVal.lit v] := by
  by_cases h29n : raw.length < 29
  · unfold transformRow at hv
    rw [if_pos h29n] at hv
    exact absurd hv (by simp)
  · refine ⟨h29n, ?_⟩
    unfold transformRow at hv
    rw [if_neg h29n] at hv
    split at hv
    · exact absurd hv (by simp)
    · rename_i vals heq
      split at hv
      · rename_i s hls
        split at hv
        · exact absurd hv (by simp)
        · rename_i v hev
          refine ⟨vals, s, v, heq, hls, hev, ?_⟩
          simpa using hv.symm
      · exact absurd hv (by simp)

/-- C8: in a 29-cell raw row the final cell sits at position 27 after the
index cell is dropped, which is outside the numeric allowlist, so it is
treated under the string rules before vector parsing: its quotes are
replaced by spaces and the parsed vector is the literal value of the
sanitized cell; if the sanitized cell is longer than 10000 characters the
row is rejected whole as `fieldTooLong`. -/
theorem claim_c8_vector_cell_string_rules (raw : List String) (lastCell : String)
    (h29 : raw.length = 29) (hlast : raw.tail.getLast? = some lastCell) :
    27 ∉ numeric_columns_idx
    ∧ (maxFieldLength < (sanitize lastCell).length →
        transformRow raw = RowOut.fieldTooLong)
    ∧ (∀ vs, transformRow raw = RowOut.record vs →
        ∃ v, literalEval (sanitize lastCell) = some v
          ∧ vs.getLast? = some (CellVal.lit v)) := by
  have htlen : raw.tail.length = 28 := by
    rw [List.length_tail, h29]
  have hn27 : ¬ (27 ∈ numeric_columns_idx) := by decide
  refine ⟨hn27, ?_, ?_⟩
  · intro hlong
    have hget : raw.tail[27]? = some lastCell := by
      rw [← hlast, List.getLast?_eq_getElem? raw.tail, htlen]
    have hnc : ¬ (pyIsnumeric lastCell = true ∧ 27 ∈ numeric_columns_idx) := by
      intro hcm
      exact absurd hcm.2 hn27
    have h29n : ¬ raw.length < 29 := by omega
    exact transformRow_tooLong_of_cell h29n hget hnc hlong
  · intro vs hv
    obtain ⟨h29n, vals, s, v, hpc, hls, hev, hvs⟩ := transformRow_record_inv hv
    obtain ⟨w, hw1, hw2⟩ := processCells_getLast raw.tail 0 vals lastCell hpc hlast
    rw [htlen] at hw1
    have hw1n : processCell 27 lastCell = ColOut.ok w := by
      simpa using hw1
    have hcond : ¬ ((pyIsnumeric lastCell && numeric_columns_idx.contains 27) = true) := by
      have hc27 : numeric_columns_idx.contains 27 = false := by decide
      rw [hc27]
      simp
    unfold processCell at hw1n
    rw [if_neg hcond] at hw1n
    by_cases hlen : maxFieldLength < (sanitize lastCell).length
    · rw [if_pos hlen] at hw1n
      exact absurd hw1n (by simp)
    · rw [if_neg hlen] at hw1n
      have hwval : CellVal.str (sanitize lastCell) = w := by
        simpa using hw1n
      subst hwval
      rw [hw2] at hls
      have hs : sanitize lastCell = s := by
        simpa using hls
      rw [hs]
      refine ⟨v, hev, ?_⟩
      rw [hvs]
      simp

/-- A vector literal containing single quotes around its second element. -/
def vecQuote : String :=
  String.mk (['[', '1', ','] ++ [' ', Char.ofNat 39, '2', Char.ofNat 39, ']'])

/-- A 29-cell row ending in the quoted vector literal. -/
def quoteVecRow : List String := List.replicate 28 "x" ++ [vecQuote]

/-- Witness for C8: the quoted vector cell is sanitized and then parsed;
the record ends with the parsed literal of the sanitized cell. -/
theorem claim_c8_witness :
    ∃ v, literalEval (sanitize vecQuote) = some v
      ∧ (List.replicate 27 (CellVal.str "x")
          ++ [CellVal.lit ["1", "2"]]).getLast? = some (CellVal.lit v) :=
  (claim_c8_vector_cell_string_rules quoteVecRow vecQuote (by decide) (by decide)).2.2
    (List.replicate 27 (CellVal.str "x") ++ [CellVal.lit ["1", "2"]]) (by decide)

/-- C7: the row transformation is a pure function of the row alone:
two transformations of the same row give the same record, and inside the
pipeline the record contributed by a row does not depend on the counter
state or on the remaining rows. -/
theorem claim_c7_transform_pure :
    (∀ raw vs1 vs2, transformRow raw = RowOut.record vs1 →
        transformRow raw = RowOut.record vs2 → vs1 = vs2)
    ∧ (∀ limit it row rest vs, it ≤ limit → transformRow row = RowOut.record vs →
        (runFrom limit it (row :: rest)).records
          = vs :: (runFrom limit (it + 1) rest).records) := by
  constructor
  · intro raw vs1 vs2 h1 h2
    rw [h1] at h2
    simpa using h2
  · intro limit it row rest vs hle hrec
    have h29n : ¬ row.length < 29 := by
      intro hlt
      have hs := (transformRow_eq_shortRow_iff row).mpr hlt
      rw [hrec] at hs
      exact absurd hs (by simp)
    simp only [runFrom, if_neg h29n, if_neg (Nat.not_lt.mpr hle), hrec]

/-- The record produced from `validRow`. -/
def validRec : List CellVal :=
  List.replicate 27 (CellVal.str "x") ++ [CellVal.lit ["1"]]

/-- Witness for C7 at `validRow` in a pipeline with limit 5. -/
theorem claim_c7_witness :
    (runFrom 5 0 [validRow]).records = validRec :: (runFrom 5 1 []).records :=
  claim_c7_transform_pure.2 5 0 validRow [] validRec (by decide) (by decide)

/-- C3 (amended): for a row that survives the short-row and length checks,
the transformation succeeds exactly when the sanitized final cell parses
as a literal list, with no constraint on the parsed length; a parse
failure is an uncaught abort of the whole run, not a per-row rejection. -/
theorem claim_c3_amended (raw : List String) (vals : List CellVal) (s : String)
    (h29n : ¬ raw.length < 29)
    (hpc : processCells 0 raw.tail = some vals)
    (hlast : vals.getLast? = some (CellVal.str s)) :
    (transformRow raw = RowOut.parseAbort ↔ literalEval s = none)
    ∧ (∀ v, literalEval s = some v →
        transformRow raw = RowOut.record (vals.dropLast ++ [CellVal.lit v])) := by
  cases he : literalEval s with
  | none =>
    have ht : transformRow raw = RowOut.parseAbort := by
      unfold transformRow
      rw [if_neg h29n, hpc]
      simp [hlast, he]
    refine ⟨⟨fun _ => rfl, fun _ => ht⟩, ?_⟩
    intro v hv
    exact absurd hv (by simp)
  | some v0 =>
    have ht : transformRow raw = RowOut.record (vals.dropLast ++ [CellVal.lit v0]) := by
      unfold transformRow
      rw [if_neg h29n, hpc]
      simp [hlast, he]
    refine ⟨⟨?_, ?_⟩, ?_⟩
    · intro hp
      rw [ht] at hp
      exact absurd hp (by simp)
    · intro hn
      exact absurd hn (by simp)
    · intro v hv
      have hvv : v0 = v := by simpa using hv
      rw [← hvv]
      exact ht

/-- A 29-cell row whose final cell parses as a 2-element vector. -/
def shortVecRow : List String := List.replicate 28 "x" ++ ["[1, 2]"]

/-- C3 counterexample: a final cell parsing to 2 values (not the declared
dim 128) is accepted as a record; no `MalformedVector` rejection exists. -/
theorem claim_c3_counterexample :
    transformRow shortVecRow
      = RowOut.record (List.replicate 27 (CellVal.str "x") ++ [CellVal.lit ["1", "2"]])
    ∧ (literalEval "[1, 2]").map List.length = some 2
    ∧ (2 : Nat) ≠ 128 :=
  ⟨by decide, by decide, by decide⟩

/-- A 29-cell row whose final cell does not parse as a literal list. -/
def badVecRow : List String := List.replicate 28 "x" ++ ["oops"]

/-- Witness for C3 (amended): a parse failure on the final cell yields the
aborting outcome. -/
theorem claim_c3_witness :
    transformRow badVecRow = RowOut.parseAbort :=
  (claim_c3_amended badVecRow
      (List.replicate 27 (CellVal.str "x") ++ [CellVal.str "oops"]) "oops"
      (by decide) (by decide) (by decide)).1.mpr (by decide)

/-- C5 (amended): a short row or an over-long field skips the row and the
pipeline keeps going on the remaining rows; a malformed final cell stops
the run at once, leaving the remaining rows unread. -/
theorem claim_c5_amended (limit it : Nat) (row : List String)
    (rest : List (List String)) (hle : it ≤ limit) :
    (transformRow row = RowOut.shortRow →
      runFrom limit it (row :: rest)
        = { runFrom limit it rest with
            consumed := (runFrom limit it rest).consumed + 1,
            shortRows := (runFrom limit it rest).shortRows + 1 })
    ∧ (transformRow row = RowOut.fieldTooLong →
      runFrom limit it (row :: rest)
        = { runFrom limit it rest with
            consumed := (runFrom limit it rest).consumed + 1,
            tooLongRows := (runFrom limit it rest).tooLongRows + 1 })
    ∧ (transformRow row = RowOut.parseAbort →
      runFrom limit it (row :: rest) = ⟨it, 1, 0, 0, [], true⟩) := by
  refine ⟨?_, ?_, ?_⟩
  · intro h
    have h29 : row.length < 29 := (transformRow_eq_shortRow_iff row).mp h
    simp only [runFrom, if_pos h29]
  · intro h
    have h29n : ¬ row.length < 29 := by
      intro hlt
      have hs := (transformRow_eq_shortRow_iff row).mpr hlt
      rw [h] at hs
      exact absurd hs (by simp)
    simp only [runFrom, if_neg h29n, if_neg (Nat.not_lt.mpr hle), h]
  · intro h
    have h29n : ¬ row.length < 29 := by
      intro hlt
      have hs := (transformRow_eq_shortRow_iff row).mpr hlt
      rw [h] at hs
      exact absurd hs (by simp)
    simp only [runFrom, if_neg h29n, if_neg (Nat.not_lt.mpr hle), h]

/-- C5 counterexample: with a malformed vector row in second position, the
run aborts after consuming 2 of the 3 rows; the third row is never read,
so a malformed-vector row is not a skip-and-continue rejection. -/
theorem claim_c5_counterexample :
    (runSource [validRow, badVecRow, validRow]).aborted = true
    ∧ (runSource [validRow, badVecRow, validRow]).consumed = 2
    ∧ (runSource [validRow, badVecRow, validRow]).accepted = 1 :=
  ⟨by decide, by decide, by decide⟩

/-- Witness for C5 (amended): a short row ahead of a valid row is skipped
and the run continues over the rest. -/
theorem claim_c5_witness :
    runFrom 5 0 [[""], validRow]
      = { runFrom 5 0 [validRow] with
          consumed := (runFrom 5 0 [validRow]).consumed + 1,
          shortRows := (runFrom 5 0 [validRow]).shortRows + 1 } :=
  (claim_c5_amended 5 0 [""] [validRow] (by decide)).1 (by decide)

lemma runFrom_break (limit it : Nat) (row : List String)
    (rest : List (List String)) (h29n : ¬ row.length < 29) (hgt : limit < it) :
    runFrom limit it (row :: rest) = ⟨it, 1, 0, 0, [], false⟩ := by
  simp only [runFrom, if_neg h29n, if_pos hgt]

lemma runFrom_allvalid (limit : Nat) (rows : List (List String)) :
    ∀ it : Nat, it ≤ limit → (limit - it) + 2 ≤ rows.length →
      (∀ r ∈ rows, (transformRow r).isRec = true) →
      (runFrom limit it rows).accepted = limit + 1
      ∧ (runFrom limit it rows).consumed = (limit - it) + 2 := by
  induction rows with
  | nil =>
    intro it h1 h2 h3
    exfalso
    simp at h2
  | cons row rest ih =>
    intro it hle hlen hall
    have hrowrec : (transformRow row).isRec = true := hall row (by simp)
    obtain ⟨vs, hvs⟩ : ∃ vs, transformRow row = RowOut.record vs := by
      cases ht : transformRow row with
      | record vs => exact ⟨vs, rfl⟩
      | shortRow => rw [ht] at hrowrec; exact absurd hrowrec (by simp [RowOut.isRec])
      | fieldTooLong => rw [ht] at hrowrec; exact absurd hrowrec (by simp [RowOut.isRec])
      | parseAbort => rw [ht] at hrowrec; exact absurd hrowrec (by simp [RowOut.isRec])
    have h29n : ¬ row.length < 29 := by
      intro hlt
      have hs := (transformRow_eq_shortRow_iff row).mpr hlt
      rw [hvs] at hs
      exact absurd hs (by simp)
    have hnotgt : ¬ limit < it := Nat.not_lt.mpr hle
    have hstep : runFrom limit it (row :: rest)
        = { runFrom limit (it + 1) rest with
            consumed := (runFrom limit (it + 1) rest).consumed + 1,
            records := vs :: (runFrom limit (it + 1) rest).records } := by
      simp only [runFrom, if_neg h29n, if_neg hnotgt, hvs]
    by_cases hit : it = limit
    · subst hit
      cases rest with
      | nil =>
        exfalso
        simp at hlen
      | cons r2 rest2 =>
        have hr2 : (transformRow r2).isRec = true := hall r2 (by simp)
        have h29n2 : ¬ r2.length < 29 := by
          intro hlt
          have hs := (transformRow_eq_shortRow_iff r2).mpr hlt
          rw [hs] at hr2
          exact absurd hr2 (by simp [RowOut.isRec])
        have hbreak := runFrom_break it (it + 1) r2 rest2 h29n2 (by omega)
        rw [hstep, hbreak]
        refine ⟨by simp, ?_⟩
        simp
    · have hlt : it < limit := lt_of_le_of_ne hle hit
      have hlen2 : (limit - (it + 1)) + 2 ≤ rest.length := by
        simp only [List.length_cons] at hlen
        omega
      have hall2 : ∀ r ∈ rest, (transformRow r).isRec = true := by
        intro r hr
        exact hall r (by simp [hr])
      obtain ⟨ha, hc⟩ := ih (it + 1) hlt hlen2 hall2
      rw [hstep]
      refine ⟨by simpa using ha, ?_⟩
      have hcc : (runFrom limit (it + 1) rest).consumed = (limit - (it + 1)) + 2 := hc
      simp [hcc]
      omega

/-- C2 counterexample: with the source limit 20000 and 20005 valid rows,
20001 rows are accepted, but the loop also consumes row 20002 before
stopping, so 3 rows remain unread, not 4 as the claim states. -/
theorem claim_c2_counterexample :
    (runSource (List.replicate 20005 validRow)).accepted = 20001
    ∧ (runSource (List.replicate 20005 validRow)).consumed = 20002
    ∧ 20005 - (runSource (List.replicate 20005 validRow)).consumed = 3 := by
  have hall : ∀ r ∈ List.replicate 20005 validRow, (transformRow r).isRec = true := by
    intro r hr
    have hrv : r = validRow := List.eq_of_mem_replicate hr
    rw [hrv]
    decide
  have hs20 : sourceLimit = 20000 := rfl
  have hbound : sourceLimit - 0 + 2 ≤ (List.replicate 20005 validRow).length := by
    rw [List.length_replicate, hs20]
    omega
  obtain ⟨ha, hc⟩ := runFrom_allvalid sourceLimit (List.replicate 20005 validRow) 0
    (Nat.zero_le _) hbound hall
  have hacc : (runSource (List.replicate 20005 validRow)).accepted = 20001 := by
    show (runFrom sourceLimit 0 (List.replicate 20005 validRow)).accepted = 20001
    rw [hs20] at ha ⊢
    omega
  have hcon : (runSource (List.replicate 20005 validRow)).consumed = 20002 := by
    show (runFrom sourceLimit 0 (List.replicate 20005 validRow)).consumed = 20002
    rw [hs20] at hc ⊢
    omega
  refine ⟨hacc, hcon, ?_⟩
  rw [hcon]

/-- C2 (amended): with limit `L` and a source of `L + 5` rows that all
transform to records, exactly `L + 1` rows are accepted; the loop then
also consumes row `L + 2` (whose examination trips the strict `>` limit
check), so `L + 2` rows are consumed and the remaining 3 rows are never
read. -/
theorem claim_c2_amended (L : Nat) (rows : List (List String))
    (hlen : rows.length = L + 5)
    (hall : ∀ r ∈ rows, (transformRow r).isRec = true) :
    (run L rows).accepted = L + 1
    ∧ (run L rows).consumed = L + 2
    ∧ rows.length - (run L rows).consumed = 3 := by
  obtain ⟨ha, hc⟩ := runFrom_allvalid L rows 0 (Nat.zero_le L) (by omega) hall
  refine ⟨ha, ?_, ?_⟩
  · show (runFrom L 0 rows).consumed = L + 2
    rw [hc]
    omega
  · show rows.length - (runFrom L 0 rows).consumed = 3
    rw [hc, hlen]
    omega

/-- Witness for C2 (amended) at limit 1 with 6 valid rows: 2 accepted,
3 consumed, 3 unread. -/
theorem claim_c2_witness :
    (run 1 (List.replicate 6 validRow)).accepted = 2
    ∧ (run 1 (List.replicate 6 validRow)).consumed = 3
    ∧ (List.replicate 6 validRow).length - (run 1 (List.replicate 6 validRow)).consumed = 3 :=
  claim_c2_amended 1 (List.replicate 6 validRow) (by decide) (by decide)

/-- C10: the counter `it` advances only on accepted rows: the final value
equals its initial value plus the number of accepted records; a short row
or an over-long row (below the limit) leaves the counter unchanged; and a
run over any number of short rows consumes them all while accepting none,
so the rows examined before the limit trips are unbounded. -/
theorem claim_c10_accepted_counter :
    (∀ limit it rows, (runFrom limit it rows).accepted
        = it + (runFrom limit it rows).records.length)
    ∧ (∀ limit it row rest, transformRow row = RowOut.shortRow →
        (runFrom limit it (row :: rest)).accepted = (runFrom limit it rest).accepted)
    ∧ (∀ limit it row rest, it ≤ limit → transformRow row = RowOut.fieldTooLong →
        (runFrom limit it (row :: rest)).accepted = (runFrom limit it rest).accepted)
    ∧ (∀ n limit, (run limit (List.replicate n [""])).consumed = n
        ∧ (run limit (List.replicate n [""])).accepted = 0) := by
  have hmain : ∀ limit (rows : List (List String)) it,
      (runFrom limit it rows).accepted = it + (runFrom limit it rows).records.length := by
    intro limit rows
    induction rows with
    | nil => intro it; simp [runFrom]
    | cons row rest ih =>
      intro it
      by_cases h29 : row.length < 29
      · simp only [runFrom, if_pos h29]
        simpa using ih it
      · by_cases hgt : limit < it
        · simp only [runFrom, if_neg h29, if_pos hgt]
          simp
        · simp only [runFrom, if_neg h29, if_neg hgt]
          cases ht : transformRow row with
          | record vs =>
            simp only [ht, List.length_cons]
            have hr := ih (it + 1)
            simp only [hr]
            omega
          | shortRow =>
            simp only [ht]
            simpa using ih it
          | fieldTooLong =>
            simp only [ht]
            simpa using ih it
          | parseAbort =>
            simp only [ht, List.length_nil]
            simp
  refine ⟨fun limit it rows => hmain limit rows it, ?_, ?_, ?_⟩
  · intro limit it row rest h
    have h29 : row.length < 29 := (transformRow_eq_shortRow_iff row).mp h
    simp only [runFrom, if_pos h29]
  · intro limit it row rest hle h
    have h29n : ¬ row.length < 29 := by
      intro hlt
      have hs := (transformRow_eq_shortRow_iff row).mpr hlt
      rw [h] at hs
      exact absurd hs (by simp)
    simp only [runFrom, if_neg h29n, if_neg (Nat.not_lt.mpr hle), h]
  · intro n limit
    induction n with
    | zero => exact ⟨rfl, rfl⟩
    | succ m ihn =>
      have hshort : (([""] : List String)).length < 29 := by decide
      constructor
      · show (runFrom limit 0 (List.replicate (m + 1) [""])).consumed = m + 1
        rw [List.replicate_succ]
        simp only [runFrom, if_pos hshort]
        have hm : (runFrom limit 0 (List.replicate m [""])).consumed = m := ihn.1
        simp [hm]
      · show (runFrom limit 0 (List.replicate (m + 1) [""])).accepted = 0
        rw [List.replicate_succ]
        simp only [runFrom, if_pos hshort]
        have hm : (runFrom limit 0 (List.replicate m [""])).accepted = 0 := ihn.2
        simp [hm]

/-- Witness for C10: a short row before a valid row leaves the accepted
counter of the remaining run unchanged, and with an over-long row. -/
theorem claim_c10_witness :
    (runFrom 5 0 [[""], validRow]).accepted = (runFrom 5 0 [validRow]).accepted
    ∧ (runFrom 5 0 (longCellRow :: [validRow])).accepted
        = (runFrom 5 0 [validRow]).accepted := by
  have hlongrow : transformRow longCellRow = RowOut.fieldTooLong := by
    have h29 : ¬ longCellRow.length < 29 := by
      show ¬ ("0" :: bigLetters :: List.replicate 27 "x").length < 29
      simp
    have hnc : ¬ (pyIsnumeric bigLetters = true ∧ 0 ∈ numeric_columns_idx) := by
      intro hcm
      exact absurd hcm.2 (by decide)
    have hlong : maxFieldLength < (sanitize bigLetters).length := by
      rw [sanitize_length]
      show maxFieldLength < (String.mk (List.replicate 10001 'a')).length
      rw [length_mk_replicate]
      decide
    exact transformRow_tooLong_of_cell h29
      (rfl : longCellRow.tail[0]? = some bigLetters) hnc hlong
  exact ⟨claim_c10_accepted_counter.2.1 5 0 [""] [validRow] (by decide),
    claim_c10_accepted_counter.2.2.1 5 0 longCellRow [validRow] (by decide) hlongrow⟩
